import Mathlib

/-!
# Verification of the SCHOLARX matching-and-scheduling engine

Shallow embedding of the numeric core of the repository:

* `get_user_availability_overlap` (webapp/backend/projects/advanced_matching.py)
* `compute_skill_scores` / `enhance_scores_with_graph` (same file)
* DBSCAN-based community detection as invoked by `detect_communities_graph`
* `calculate_schedule_match_percentage`, `_calculate_team_compatibility_score`,
  `find_optimal_teams`, `find_team_meeting_slots` (schedule.py)
* `find_common_slots` (webapp/backend/projects/meeting_slots.py)

Times are modelled in minutes after midnight (the Python code normalizes
"HH:MM" strings and compares converted minute values); money-free arithmetic
on floats is modelled exactly over `ℚ` and, where the code computes
`coverage ** 0.7`, over `ℝ` with real exponentiation.
-/

/-- A weekly availability slot `(start, end)` in minutes after midnight.
The Python code stores canonical "HH:MM" strings, so string equality of
slots coincides with equality of the minute pairs. -/
abbrev Slot := ℕ × ℕ

/-- End of a slot after the midnight-crossover normalization of
`slots_overlap` / `get_overlapping_slots`: an end `≤` start is pushed by
24 hours (1440 minutes). -/
def slotEndNorm (s : Slot) : ℕ := if s.2 ≤ s.1 then s.2 + 1440 else s.2

/-- Embeds `slots_overlap` (advanced_matching.py lines 573-587) and
`get_overlapping_slots` (schedule.py lines 995-1021): two slots overlap iff
`not (end1 <= start2 or end2 <= start1)` after midnight normalization. -/
def slotsOverlap (s1 s2 : Slot) : Bool :=
  !(decide (slotEndNorm s1 ≤ s2.1) || decide (slotEndNorm s2 ≤ s1.1))

/-- Number of exact slot matches of a day:
`user1_available.intersection(user2_available)`.  The per-day slot
collections are Python sets; they are modelled as duplicate-free lists. -/
def exactMatches (a b : List Slot) : ℕ :=
  (a.filter (fun s => decide (s ∈ b))).length

/-- Partial credit of a day: for each slot of the first user, 0.5 is added
once if it overlaps some non-identical slot of the second user (the inner
`break` stops after the first overlapping partner). -/
def partialMatches (a b : List Slot) : ℚ :=
  (((a.filter (fun s1 => b.any (fun s2 => decide (s1 ≠ s2) && slotsOverlap s1 s2))).length : ℚ)) / 2

/-- Embeds `day_common = len(exact_matches) + overlapping_matches`. -/
def dayCommon (a b : List Slot) : ℚ := (exactMatches a b : ℚ) + partialMatches a b

/-- A weekly schedule: for each of the 7 days, the (duplicate-free) list of
available slots.  Day 0 is Sunday, matching the code's day ordering. -/
def Schedule := Fin 7 → List Slot

/-- The 12 fixed 2-hour buckets per day (`time_slots`). -/
def timeSlotsPerDay : ℕ := 12

/-- Embeds `any(schedule[day] for day in schedule)`: the user has at least one
recorded availability slot. -/
def hasSlots (s : Schedule) : Bool :=
  (List.finRange 7).any (fun d => !(s d).isEmpty)

/-- Sum of `day_common` over the seven days. -/
def totalCommon (s1 s2 : Schedule) : ℚ :=
  ((List.finRange 7).map (fun d => dayCommon (s1 d) (s2 d))).sum

/-- The final clamping of `get_user_availability_overlap`
(lines 638-641): ratios below 0 become 0, above 1 become 1. -/
def clamp01 (q : ℚ) : ℚ := if q < 0 then 0 else if 1 < q then 1 else q

/-- Numeric core of `get_user_availability_overlap`
(advanced_matching.py lines 600-642), starting from the two users' built
schedules: if either user has no slot at all the neutral score 0.5 is
returned; otherwise the clamped ratio of common slots over `7 * 12`. -/
def availabilityOverlap (s1 s2 : Schedule) : ℚ :=
  if hasSlots s1 && hasSlots s2 then
    clamp01 (totalCommon s1 s2 / (7 * (timeSlotsPerDay : ℚ)))
  else 1/2

/-- One row of `UserAvailability` with `is_available=True`:
`(day_of_week, time_slot_start, time_slot_end)`, times in minutes. -/
structure AvailEntry where
  day : ℕ
  start : ℕ
  stop : ℕ

/-- Embeds `build_schedule` (advanced_matching.py lines 543-562): group the
entries by day (entries with an out-of-range day are dropped) into per-day
sets of slots; set semantics is modelled by `dedup`. -/
def buildSchedule (entries : List AvailEntry) : Schedule :=
  fun d => ((entries.filter (fun e => decide (e.day = d.val))).map
    (fun e => (e.start, e.stop))).dedup

/-! ## schedule.py: pairwise match percentage and team scoring -/

/-- Numeric core of `calculate_schedule_match_percentage` (schedule.py
lines 927-963) with the default `preferred_days` (all seven days):
`match_percentage = common_slots / total_possible_slots * 100` where the
per-day commons are computed exactly as in `availabilityOverlap` and
`total_possible_slots = 7 * 12 = 84`.  Note: no clamping and no neutral
0.5 here. -/
def matchPercentage (s1 s2 : Schedule) : ℚ :=
  totalCommon s1 s2 / (7 * (timeSlotsPerDay : ℚ)) * 100

/-- A loaded user profile as far as team scoring needs it: the weekly
schedule and the stored `total_available_slots` count. -/
structure UserData where
  schedule : Schedule
  totalSlots : ℕ

/-- All pairwise match percentages of a team, pairs `(i, j)` with `i < j`
in list order (schedule.py lines 1163-1169). -/
def pairScores : List UserData → List ℚ
  | [] => []
  | u :: rest =>
      rest.map (fun v => matchPercentage u.schedule v.schedule) ++ pairScores rest

/-- Python `max` of a nonempty list (0 as junk value for `[]`). -/
def listMax (l : List ℚ) : ℚ :=
  match l with
  | [] => 0
  | x :: xs => xs.foldl max x

/-- Python `min` of a nonempty list (0 as junk value for `[]`). -/
def listMin (l : List ℚ) : ℚ :=
  match l with
  | [] => 0
  | x :: xs => xs.foldl min x

/-- Python `max` over the team's `total_available_slots`. -/
def maxSlots (team : List UserData) : ℕ :=
  match team.map (fun u => u.totalSlots) with
  | [] => 0
  | x :: xs => xs.foldl max x

/-- Python `min` over the team's `total_available_slots`. -/
def minSlots (team : List UserData) : ℕ :=
  match team.map (fun u => u.totalSlots) with
  | [] => 0
  | x :: xs => xs.foldl min x

/-- Embeds `availability_variance = max - min` over `team_availability`
(schedule.py line 1181). -/
def availabilityVariance (team : List UserData) : ℕ := maxSlots team - minSlots team

/-- Embeds `zero_availability_penalty`, 15.0 per member with 0 slots
(schedule.py line 1184). -/
def zeroAvailabilityPenalty (team : List UserData) : ℚ :=
  ((team.filter (fun u => decide (u.totalSlots = 0))).length : ℚ) * 15

/-- Embeds `availability_penalty = min(variance / 10, 10) + zero_availability_penalty`
(schedule.py line 1185). -/
def availabilityPenalty (team : List UserData) : ℚ :=
  min ((availabilityVariance team : ℚ) / 10) 10 + zeroAvailabilityPenalty team

/-- Embeds the `overall_score` of `_calculate_team_compatibility_score` (schedule.py
lines 1171-1191): `avg*0.6 + min*0.3 + max*0.1 - availability_penalty`
over the pairwise match percentages; 0 when there are no pairs.  (The
presentational `round(_, 1)` of the returned dict is elided.) -/
def teamOverallScore (team : List UserData) : ℚ :=
  let ps := pairScores team
  if ps.isEmpty then 0
  else
    (ps.sum / (ps.length : ℚ)) * (6/10) + listMin ps * (3/10)
      + listMax ps * (1/10) - availabilityPenalty team

/-- Embeds `find_optimal_teams` (schedule.py lines 1082-1152), with the database
load abstracted into the given pool of user profiles and the returned
per-team meeting-slot annotation elided: team sizes below 2 and pools
smaller than the team size produce error results (never exceptions);
otherwise up to 1000 size-`teamSize` combinations are scored, filtered by
`min_team_score`, sorted by score descending and cut to `max_teams`. -/
def findOptimalTeams (users : List UserData) (teamSize : ℕ)
    (minTeamScore : ℚ) (maxTeams : ℕ) : Except String (List (List UserData × ℚ)) :=
  if teamSize < 2 then .error "Team size must be at least 2"
  else if users.length < teamSize then
    .error ("Not enough users. Need " ++ toString teamSize ++ ", have "
      ++ toString users.length)
  else
    let available := users.filter (fun u => decide (0 ≤ u.totalSlots))
    if available.length < teamSize then
      .error ("Not enough users. Need " ++ toString teamSize ++ ", have "
        ++ toString available.length)
    else
      let combos := (available.sublistsLen teamSize).take 1000
      let scored := combos.filterMap (fun t =>
        let s := teamOverallScore t
        if minTeamScore ≤ s then some (t, s) else none)
      .ok ((scored.insertionSort (fun a b => b.2 ≤ a.2)).take maxTeams)

/-! ## Meeting-slot classification -/

/-- The bucket a weekly slot ends up in (or `discarded` when it is dropped
from all three result lists). -/
inductive Bucket where
  | perfect
  | good
  | backup
  | discarded
deriving DecidableEq

/-- Slot classification of `find_team_meeting_slots` (schedule.py lines
1260-1284): `availability_percentage = available/total * 100`, then
`== 100 → perfect`, `elif >= 80 → good`, `elif >= 50 → backup`, else the
slot is kept in no list. -/
def scheduleSlotBucket (availableMembers totalMembers : ℕ) : Bucket :=
  if (availableMembers : ℚ) / (totalMembers : ℚ) * 100 = 100 then .perfect
  else if 80 ≤ (availableMembers : ℚ) / (totalMembers : ℚ) * 100 then .good
  else if 50 ≤ (availableMembers : ℚ) / (totalMembers : ℚ) * 100 then .backup
  else .discarded

/-- Embeds `min_good = max(1, int(total_members * 0.8))` of `find_common_slots`
(meeting_slots.py line 61); `int(total * 0.8)` truncates, which coincides
with `⌊4 * total / 5⌋`. -/
def minGood (totalMembers : ℕ) : ℕ := max 1 (4 * totalMembers / 5)

/-- Embeds `min_backup = max(1, int(total_members * 0.5))` (meeting_slots.py
line 62); `int(total * 0.5) = ⌊total / 2⌋`. -/
def minBackup (totalMembers : ℕ) : ℕ := max 1 (totalMembers / 2)

/-- Slot classification of `find_common_slots` (meeting_slots.py lines
82-101): slots with no available member are skipped; otherwise
`count == total → perfect`, `elif count >= min_good → good`,
`elif count >= min_backup → backup`, else dropped. -/
def meetingSlotBucket (availableCount totalMembers : ℕ) : Bucket :=
  if availableCount = 0 then .discarded
  else if availableCount = totalMembers then .perfect
  else if minGood totalMembers ≤ availableCount then .good
  else if minBackup totalMembers ≤ availableCount then .backup
  else .discarded

/-! ## SimilarityScorer: per-candidate skill scoring
(`compute_skill_scores`, advanced_matching.py lines 141-333)

The embedding starts from `max_per_input`: for each input skill, the best
cosine similarity over the candidate's skills, the matched skill name, and
the proficiency the code looks up for that skill
(`skill_proficiencies.get(matched_skill, 3)`).  Everything downstream of
the (external) embedding provider is embedded exactly. -/

/-- One entry of `max_per_input`, together with the looked-up proficiency
of the matched skill. -/
structure MatchCand where
  sim : ℚ
  skill : String
  prof : ℕ

/-- Embeds `valid_matches` (lines 229-244): keep entries whose similarity cleared
the threshold, whose matched skill is nonempty, and whose proficiency is
not 0 ("want to learn"); the kept data are the `(sim, prof)` pairs. -/
def validMatches (threshold : ℚ) (cands : List MatchCand) : List (ℚ × ℕ) :=
  (cands.filter (fun m =>
    decide (threshold ≤ m.sim) && decide (m.skill ≠ "") && decide (m.prof ≠ 0))).map
    (fun m => (m.sim, m.prof))

/-- Embeds `weighted_similarity_sum` (lines 247-257): each similarity is weighted
by `0.3 + 0.7 * (proficiency / 5)`. -/
def weightedSimSum (ms : List (ℚ × ℕ)) : ℚ :=
  (ms.map (fun p => p.1 * (3/10 + 7/10 * ((p.2 : ℚ) / 5)))).sum

/-- Embeds `total_proficiency` (line 252): raw integer proficiencies summed. -/
def totalProficiency (ms : List (ℚ × ℕ)) : ℕ := (ms.map (fun p => p.2)).sum

/-- Embeds `coverage = matched_skills_count / len(input_skills)` (line 260). -/
def coverage (ms : List (ℚ × ℕ)) (inputCount : ℕ) : ℚ :=
  (ms.length : ℚ) / (inputCount : ℚ)

/-- Embeds `avg_score` (line 263): proficiency-weighted mean similarity of the
matched terms, 0 when nothing matched. -/
def avgScore (ms : List (ℚ × ℕ)) : ℚ :=
  if ms.length = 0 then 0 else weightedSimSum ms / (ms.length : ℚ)

/-- Embeds `avg_proficiency = total_proficiency / matched_skills_count`
(line 269).  Note: `total_proficiency` accumulates the raw 1-5 integers,
so this average lies in `[1, 5]` whenever there is a match, although the
adjacent comments in the source describe it as a 0-1 quantity. -/
def avgProficiency (ms : List (ℚ × ℕ)) : ℚ :=
  (totalProficiency ms : ℚ) / (ms.length : ℚ)

/-- The proficiency-bonus step function of lines 280-289, keyed on
`avg_proficiency` compared against 0.2 / 0.4 / 0.6 / 0.8. -/
def proficiencyBand (avgProf : ℚ) : ℚ :=
  if avgProf < 1/5 then 1/50
  else if avgProf < 2/5 then 1/20
  else if avgProf < 3/5 then 1/10
  else if avgProf < 4/5 then 3/20
  else 1/5

/-- Embeds `coverage_factor = coverage ** 0.7` (line 293), over the reals. -/
noncomputable def coverageFactor (cov : ℚ) : ℝ := (cov : ℝ) ^ ((7 : ℝ)/10)

/-- Embeds `proficiency_bonus` (lines 266-294): 0 without matches
(`max_possible_proficiency > 0 and matched_skills_count > 0` both reduce
to `matched_skills_count > 0`), otherwise the band value scaled by
`coverage ** 0.7`. -/
noncomputable def proficiencyBonus (ms : List (ℚ × ℕ)) (inputCount : ℕ) : ℝ :=
  if ms.length = 0 then 0
  else (proficiencyBand (avgProficiency ms) : ℝ) * coverageFactor (coverage ms inputCount)

/-- Embeds `max_base_score` (lines 300-303): 0.8, lowered to `0.1 + 0.7*coverage`
when coverage is below 1. -/
def maxBaseScore (cov : ℚ) : ℚ := if cov < 1 then 1/10 + 7/10 * cov else 4/5

/-- Embeds `base_score = min(max_base_score, 0.6*avg_score + 0.4*coverage)`
(line 306). -/
def baseScore (ms : List (ℚ × ℕ)) (inputCount : ℕ) : ℚ :=
  min (maxBaseScore (coverage ms inputCount))
    (3/5 * avgScore ms + 2/5 * coverage ms inputCount)

/-- Embeds `multi_skill_bonus = 0.05 * (1 - 0.9 ** (count - 1))` (line 314). -/
def multiSkillBonus (k : ℕ) : ℚ := 1/20 * (1 - (9/10) ^ (k - 1))

/-- Embeds `weighted_score` (lines 309-315): `min(1, base + proficiency_bonus)`,
then the multi-match bonus re-capped at 1 when more than one term
matched. -/
noncomputable def weightedScore (ms : List (ℚ × ℕ)) (inputCount : ℕ) : ℝ :=
  if 1 < ms.length then
    min 1 (min 1 ((baseScore ms inputCount : ℝ) + proficiencyBonus ms inputCount)
      + (multiSkillBonus ms.length : ℝ))
  else min 1 ((baseScore ms inputCount : ℝ) + proficiencyBonus ms inputCount)

/-- The per-candidate `Weighted_Score` value appended on line 317:
`min(1.0, weighted_score)`. -/
noncomputable def candidateWeightedScore (ms : List (ℚ × ℕ)) (inputCount : ℕ) : ℝ :=
  min 1 (weightedScore ms inputCount)

/-- Per-candidate skill score from the raw `max_per_input` data. -/
noncomputable def candidateScore (threshold : ℚ) (cands : List MatchCand)
    (inputCount : ℕ) : ℝ :=
  candidateWeightedScore (validMatches threshold cands) inputCount

/-- The pool maximum `df["Weighted_Score"].max()`, as a fold (0 for the
empty pool; the code's guard `max > 0` behaves identically on both
readings). -/
noncomputable def maxScore (scores : List ℝ) : ℝ := scores.foldr max 0

/-- Pool-level normalization of lines 324-330: with more than one
candidate and a positive maximum, clip at 1 when the maximum exceeds 0.8,
otherwise rescale all scores so the maximum becomes 0.8. -/
noncomputable def normalizeScores (scores : List ℝ) : List ℝ :=
  if 1 < scores.length ∧ 0 < maxScore scores then
    if 4/5 < maxScore scores then scores.map (fun s => min 1 s)
    else scores.map (fun s => s / maxScore scores * (4/5))
  else scores

/-! ## NetworkEnhancer (`enhance_scores_with_graph`, lines 448-492, and
`detect_communities_graph`, lines 384-423) -/

/-- The candidate similarity graph as built by `build_student_skill_graph`:
a finite adjacency map, node id to neighbor list.  Only nodes incident to
at least one edge are keys (the code uses a `defaultdict` that is only
touched when an edge is inserted). -/
abbrev Adjacency := List (ℕ × List ℕ)

/-- Neighbor list of a node (empty for non-keys). -/
def neighborsOf (adj : Adjacency) (v : ℕ) : List ℕ :=
  match adj.find? (fun p => decide (p.1 = v)) with
  | some p => p.2
  | none => []

/-- Size of the DBSCAN eps-neighborhood of a node.  The code runs DBSCAN
on the precomputed distance matrix `1 - adjacency` with zero diagonal and
`eps = 0.5`, so the eps-ball of a node is the node itself (distance 0)
together with its graph neighbors (distance 0); non-neighbors are at
distance 1 > eps. -/
def neighborhoodSize (adj : Adjacency) (v : ℕ) : ℕ := 1 + (neighborsOf adj v).length

/-- DBSCAN core point: at least `min_samples` samples (the point itself
included, per sklearn's definition) in its eps-neighborhood. -/
def isCore (minSamples : ℕ) (adj : Adjacency) (v : ℕ) : Bool :=
  decide (minSamples ≤ neighborhoodSize adj v)

/-- DBSCAN cluster membership (label `≥ 0`): the point is core, or it is a
border point, i.e. within eps of a core point.  Everything else is noise
(label -1). -/
def isClustered (minSamples : ℕ) (adj : Adjacency) (v : ℕ) : Bool :=
  isCore minSamples adj v || (neighborsOf adj v).any (isCore minSamples adj)

/-- The keys of `community_map` built on lines 419-422: every node of the
adjacency receives an entry, noise-labelled (-1) nodes included. -/
def communityKeys (adj : Adjacency) : List ℕ := adj.map (fun p => p.1)

/-- The community bonus applied on lines 483-485 of
`enhance_scores_with_graph`: a flat 0.02 for any candidate present in
`usn_to_community` (membership in the map, regardless of the label). -/
def communityBonus (adj : Adjacency) (v : ℕ) : ℚ :=
  if v ∈ communityKeys adj then 1/50 else 0

/-- Embeds `enhanced_score = min(1.0, base + centrality*network_weight + comm_bonus)`
(lines 479-487), with `comm_bonus` 0.02 exactly for community-map members. -/
noncomputable def enhancedScore (base centrality networkWeight : ℝ)
    (commBonus : ℝ) : ℝ :=
  min 1 (base + centrality * networkWeight + commBonus)

/-! ## Concrete inputs used by counterexamples and witnesses -/

/-- Candidate A of the symmetry counterexample: available Sunday
10:00-12:00 only. -/
def schedA : Schedule := fun d => if d.val = 0 then [(600, 720)] else []

/-- Candidate B of the symmetry counterexample: available Sunday
9:00-11:00 and 11:00-13:00. -/
def schedB : Schedule := fun d => if d.val = 0 then [(540, 660), (660, 780)] else []

/-- A schedule with one fixed slot (10:00-12:00) on every day. -/
def oneSlotSched : Schedule := fun _ => [(600, 720)]

/-- Two users sharing a single daily slot; their pairwise match is 25/3
percent, which already puts the team compatibility score above 1. -/
def uFull : UserData := ⟨oneSlotSched, 7⟩

/-- The proficiency-bonus step function as the claim/spec states it: the
band is selected by the average matched proficiency `p` on the 1-5 scale
(2% for `p < 1`, 5% for `p < 2`, 10% for `p < 3`, 15% for `p < 4`, 20%
above).  Written for comparison against the code's `proficiencyBand`,
which receives the same 1-5 average but compares it against the 0.2-0.8
cutoffs of a 0-1 scale. -/
def specProficiencyBand (p : ℚ) : ℚ :=
  if p < 1 then 1/50
  else if p < 2 then 1/20
  else if p < 3 then 1/10
  else if p < 4 then 3/20
  else 1/5

/-! ## Helper lemmas -/

/-- A list of length at most one is empty or a singleton. -/
theorem listShort {α : Type} (l : List α) (h : l.length ≤ 1) :
    l = [] ∨ ∃ x, l = [x] := by
  match l with
  | [] => exact Or.inl rfl
  | [x] => exact Or.inr ⟨x, rfl⟩
  | x :: y :: t =>
    exfalso
    simp only [List.length_cons] at h
    omega

/-- Interval overlap is symmetric. -/
theorem slotsOverlap_comm (s1 s2 : Slot) : slotsOverlap s1 s2 = slotsOverlap s2 s1 := by
  unfold slotsOverlap
  rw [Bool.or_comm]

/-- With at most one slot per side, a day's common-slot count is
symmetric. -/
theorem dayCommon_comm_short (a b : List Slot) (ha : a.length ≤ 1)
    (hb : b.length ≤ 1) : dayCommon a b = dayCommon b a := by
  rcases listShort a ha with rfl | ⟨x, rfl⟩ <;> rcases listShort b hb with rfl | ⟨y, rfl⟩
  · rfl
  · simp [dayCommon, exactMatches, partialMatches]
  · simp [dayCommon, exactMatches, partialMatches]
  · by_cases hxy : x = y
    · subst hxy; rfl
    · simp only [dayCommon, exactMatches, partialMatches, List.filter, List.any,
        List.mem_singleton, hxy, Ne.symm hxy, decide_eq_true_eq, Bool.or_false,
        slotsOverlap_comm x y]
      cases slotsOverlap y x <;> simp [hxy, Ne.symm hxy]

/-- Clamped values lie in the unit interval. -/
theorem clamp01_bounds (q : ℚ) : 0 ≤ clamp01 q ∧ clamp01 q ≤ 1 := by
  unfold clamp01
  split_ifs with h1 h2
  · exact ⟨le_refl 0, zero_le_one⟩
  · exact ⟨zero_le_one, le_refl 1⟩
  · exact ⟨not_lt.mp h1, not_lt.mp h2⟩

/-- The availability overlap always lies in `[0, 1]`. -/
theorem availabilityOverlap_bounds (s1 s2 : Schedule) :
    0 ≤ availabilityOverlap s1 s2 ∧ availabilityOverlap s1 s2 ≤ 1 := by
  unfold availabilityOverlap
  split_ifs with h
  · exact clamp01_bounds _
  · norm_num

/-- The community bonus is non-negative. -/
theorem communityBonus_nonneg (adj : Adjacency) (v : ℕ) :
    0 ≤ communityBonus adj v := by
  unfold communityBonus
  split_ifs <;> norm_num

/-- An empty entry list builds a schedule with no slot. -/
theorem hasSlots_buildSchedule_nil : hasSlots (buildSchedule []) = false := by decide

/-- The seven day indices, with explicit bounds. -/
theorem finRange_seven :
    List.finRange 7 = [⟨0, by omega⟩, ⟨1, by omega⟩, ⟨2, by omega⟩, ⟨3, by omega⟩,
      ⟨4, by omega⟩, ⟨5, by omega⟩, ⟨6, by omega⟩] := rfl

/-! ## C2: symmetry of the availability overlap -/

/-- C2 counterexample: `get_user_availability_overlap` is NOT symmetric.
With A = {Sun 10:00-12:00} and B = {Sun 9:00-11:00, Sun 11:00-13:00}, A's
single slot earns one 0.5 partial credit against B (0.5/84), while each of
B's two slots earns 0.5 against A (1.0/84): the two call orders disagree. -/
theorem claim_C2_counterexample :
    availabilityOverlap schedA schedB ≠ availabilityOverlap schedB schedA := by
  have hAB : availabilityOverlap schedA schedB = 1/168 := by
    rw [availabilityOverlap]
    norm_num [hasSlots, clamp01, totalCommon, finRange_seven, dayCommon,
      exactMatches, partialMatches, schedA, schedB, slotsOverlap, slotEndNorm,
      timeSlotsPerDay]
  have hBA : availabilityOverlap schedB schedA = 1/84 := by
    rw [availabilityOverlap]
    norm_num [hasSlots, clamp01, totalCommon, finRange_seven, dayCommon,
      exactMatches, partialMatches, schedA, schedB, slotsOverlap, slotEndNorm,
      timeSlotsPerDay]
  rw [hAB, hBA]
  norm_num

/-- C2 (amended): the overlap computation is symmetric whenever each user
has at most one availability slot per day; in general the 0.5-per-slot
partial credit is counted per slot of the *first* argument (with at most
one credit per slot), which breaks symmetry. -/
theorem claim_C2 (s1 s2 : Schedule)
    (h1 : ∀ d, (s1 d).length ≤ 1) (h2 : ∀ d, (s2 d).length ≤ 1) :
    availabilityOverlap s1 s2 = availabilityOverlap s2 s1 := by
  have htot : totalCommon s1 s2 = totalCommon s2 s1 := by
    unfold totalCommon
    congr 1
    exact List.map_congr_left fun d _ => dayCommon_comm_short _ _ (h1 d) (h2 d)
  unfold availabilityOverlap
  rw [htot, Bool.and_comm]

/-- C2 witness: the symmetry theorem applied to two concrete schedules
with one slot per day. -/
theorem claim_C2_witness :
    availabilityOverlap schedA oneSlotSched = availabilityOverlap oneSlotSched schedA :=
  claim_C2 schedA oneSlotSched (by decide) (by decide)

/-! ## C7: zero availability degrades to the neutral 0.5 -/

/-- C7: if either user has zero recorded availability entries, the overlap
computation returns exactly the neutral 0.5.  (The embedding is a total
function: no exception is possible.) -/
theorem claim_C7 (e1 e2 : List AvailEntry) (h : e1 = [] ∨ e2 = []) :
    availabilityOverlap (buildSchedule e1) (buildSchedule e2) = 1/2 := by
  rcases h with rfl | rfl
  · unfold availabilityOverlap
    rw [hasSlots_buildSchedule_nil]
    simp
  · unfold availabilityOverlap
    rw [hasSlots_buildSchedule_nil]
    simp

/-- C7 witness: a user with no entries against a user with one Sunday
morning entry. -/
theorem claim_C7_witness :
    availabilityOverlap (buildSchedule []) (buildSchedule [⟨0, 600, 720⟩]) = 1/2 :=
  claim_C7 [] [⟨0, 600, 720⟩] (Or.inl rfl)

/-! ## C8: oversized team request yields an error result -/

/-- C8: asking `find_optimal_teams` for teams larger than the candidate
pool returns the "Not enough users" error value (the embedding is a total
function into `Except`, mirroring the early-`return {'error': ...}` paths:
no exception escapes). -/
theorem claim_C8 (users : List UserData) (teamSize : ℕ) (minTeamScore : ℚ)
    (maxTeams : ℕ) (hsize : 2 ≤ teamSize) (hpool : users.length < teamSize) :
    findOptimalTeams users teamSize minTeamScore maxTeams =
      .error ("Not enough users. Need " ++ toString teamSize ++ ", have "
        ++ toString users.length) := by
  unfold findOptimalTeams
  rw [if_neg (by omega), if_pos hpool]

/-- C8 witness: `team_size = 3` over a pool of 2 candidates returns an
error result. -/
theorem claim_C8_witness :
    ∃ msg, findOptimalTeams
      [⟨fun _ => [], 0⟩, ⟨fun _ => [], 0⟩] 3 20 10 = Except.error msg :=
  ⟨_, claim_C8 [⟨fun _ => [], 0⟩, ⟨fun _ => [], 0⟩] 3 20 10 (by norm_num) (by simp)⟩

/-! ## C4: network enhancement never decreases a score -/

/-- C4: the network-enhanced score is at least the candidate's base
`Weighted_Score`: the centrality and community bonuses are non-negative,
and the cap at 1 cannot drop below a base score that is itself at most 1. -/
theorem claim_C4 (base centrality networkWeight : ℝ) (adj : Adjacency) (v : ℕ)
    (hc : 0 ≤ centrality) (hw : 0 ≤ networkWeight) (hb : base ≤ 1) :
    base ≤ enhancedScore base centrality networkWeight ((communityBonus adj v : ℚ) : ℝ) := by
  unfold enhancedScore
  have hcb : (0:ℝ) ≤ ((communityBonus adj v : ℚ) : ℝ) := by
    exact_mod_cast communityBonus_nonneg adj v
  have : base ≤ base + centrality * networkWeight + ((communityBonus adj v : ℚ) : ℝ) := by
    nlinarith
  exact le_min hb this

/-- C4 witness: a candidate with base score 0.7, centrality 1, the default
network weight 0.1, inside the two-node similarity graph. -/
theorem claim_C4_witness :
    (7:ℝ)/10 ≤ enhancedScore (7/10) 1 (1/10)
      ((communityBonus [(0, [1]), (1, [0])] 0 : ℚ) : ℝ) :=
  claim_C4 (7/10) 1 (1/10) [(0, [1]), (1, [0])] 0 (by norm_num) (by norm_num) (by norm_num)

/-! ## C5: who gets the community bonus -/

/-- C5 counterexample: in the two-node graph with a single edge (as built
for two candidates whose skill embeddings are similar), node 0 has only
one neighbor — fewer than `min_samples = 2` — yet it is clustered (sklearn
counts the point itself towards `min_samples`) and receives the 0.02
community bonus, contradicting the claim that a node needs at least
`min_samples` neighbors within the distance threshold to get the bonus. -/
theorem claim_C5_counterexample :
    communityBonus [(0, [1]), (1, [0])] 0 = 1/50 ∧
      (neighborsOf [(0, [1]), (1, [0])] 0).length < 2 ∧
      isClustered 2 [(0, [1]), (1, [0])] 0 = true := by
  refine ⟨by norm_num [communityBonus, communityKeys], by decide, by decide⟩

/-- C5 (amended): the 0.02 bonus is awarded exactly to the nodes present
in the similarity graph's adjacency (the keys of `community_map`, noise
labels included).  Since every adjacency key has at least one neighbor and
DBSCAN's `min_samples = 2` counts the point itself, every node receiving
the bonus is indeed clustered; a node with no neighbor (absent from the
adjacency) receives no bonus. -/
theorem claim_C5 (adj : Adjacency) (v : ℕ) (hkeys : ∀ p ∈ adj, p.2 ≠ []) :
    (communityBonus adj v ≠ 0 → isClustered 2 adj v = true) ∧
      (v ∉ communityKeys adj → communityBonus adj v = 0) := by
  constructor
  · intro hne
    have hv : v ∈ communityKeys adj := by
      by_contra hv
      exact hne (by unfold communityBonus; rw [if_neg hv])
    obtain ⟨p, hp, hpv⟩ := List.mem_map.mp hv
    have hfind : (adj.find? (fun q => decide (q.1 = v))).isSome := by
      rw [List.find?_isSome]
      exact ⟨p, hp, by simp [hpv]⟩
    obtain ⟨q, hq⟩ := Option.isSome_iff_exists.mp hfind
    have hqmem : q ∈ adj := List.mem_of_find?_eq_some hq
    have hqne : q.2 ≠ [] := hkeys q hqmem
    have hlen : 1 ≤ q.2.length := by
      cases hq2 : q.2 with
      | nil => exact absurd hq2 hqne
      | cons a t => simp
    have hnb : neighborsOf adj v = q.2 := by
      unfold neighborsOf
      rw [hq]
    have hcore : isCore 2 adj v = true := by
      unfold isCore neighborhoodSize
      rw [hnb]
      exact decide_eq_true (by omega)
    unfold isClustered
    rw [hcore]
    rfl
  · intro hv
    unfold communityBonus
    rw [if_neg hv]

/-- C5 witness: the amended statement applied to the two-node graph. -/
theorem claim_C5_witness :
    isClustered 2 [(0, [1]), (1, [0])] 0 = true ∧
      communityBonus [(0, [1]), (1, [0])] 2 = 0 := by
  constructor
  · exact (claim_C5 [(0, [1]), (1, [0])] 0 (by decide)).1
      (by norm_num [communityBonus, communityKeys])
  · exact (claim_C5 [(0, [1]), (1, [0])] 2 (by decide)).2 (by decide)

/-! ## Bounds for the skill-scoring pipeline -/

/-- Entries surviving the `valid_matches` filter have similarity at least
the threshold and nonzero proficiency. -/
theorem validMatches_mem (threshold : ℚ) (cands : List MatchCand) (p : ℚ × ℕ)
    (hp : p ∈ validMatches threshold cands) : threshold ≤ p.1 ∧ p.2 ≠ 0 := by
  unfold validMatches at hp
  obtain ⟨m, hm, rfl⟩ := List.mem_map.mp hp
  have hfm := List.of_mem_filter hm
  simp only [Bool.and_eq_true, decide_eq_true_eq] at hfm
  exact ⟨hfm.1.1, hfm.2⟩

/-- The proficiency-weighted similarity sum is non-negative when all
similarities are. -/
theorem weightedSimSum_nonneg (ms : List (ℚ × ℕ)) (h : ∀ p ∈ ms, 0 ≤ p.1) :
    0 ≤ weightedSimSum ms := by
  unfold weightedSimSum
  apply List.sum_nonneg
  intro x hx
  obtain ⟨p, hp, rfl⟩ := List.mem_map.mp hx
  have h1 : (0:ℚ) ≤ 3/10 + 7/10 * ((p.2 : ℚ) / 5) := by positivity
  exact mul_nonneg (h p hp) h1

/-- Coverage is non-negative. -/
theorem coverage_nonneg (ms : List (ℚ × ℕ)) (n : ℕ) : 0 ≤ coverage ms n :=
  div_nonneg (Nat.cast_nonneg _) (Nat.cast_nonneg _)

/-- The average matched score is non-negative when similarities are. -/
theorem avgScore_nonneg (ms : List (ℚ × ℕ)) (h : ∀ p ∈ ms, 0 ≤ p.1) :
    0 ≤ avgScore ms := by
  unfold avgScore
  split_ifs
  · exact le_refl 0
  · exact div_nonneg (weightedSimSum_nonneg ms h) (Nat.cast_nonneg _)

/-- The base-score cap is non-negative for non-negative coverage. -/
theorem maxBaseScore_nonneg (cov : ℚ) (hc : 0 ≤ cov) : 0 ≤ maxBaseScore cov := by
  unfold maxBaseScore
  split_ifs <;> linarith

/-- The base score is non-negative when similarities are. -/
theorem baseScore_nonneg (ms : List (ℚ × ℕ)) (n : ℕ) (h : ∀ p ∈ ms, 0 ≤ p.1) :
    0 ≤ baseScore ms n := by
  unfold baseScore
  refine le_min (maxBaseScore_nonneg _ (coverage_nonneg ms n)) ?_
  have h1 := avgScore_nonneg ms h
  have h2 := coverage_nonneg ms n
  linarith

/-- Every proficiency-band value is non-negative. -/
theorem proficiencyBand_nonneg (avgProf : ℚ) : 0 ≤ proficiencyBand avgProf := by
  unfold proficiencyBand
  split_ifs <;> norm_num

/-- The factor `coverage ** 0.7` is non-negative for non-negative coverage. -/
theorem coverageFactor_nonneg (cov : ℚ) (hc : 0 ≤ cov) : 0 ≤ coverageFactor cov :=
  Real.rpow_nonneg (by exact_mod_cast hc) _

/-- The proficiency bonus is non-negative. -/
theorem proficiencyBonus_nonneg (ms : List (ℚ × ℕ)) (n : ℕ) :
    0 ≤ proficiencyBonus ms n := by
  unfold proficiencyBonus
  split_ifs
  · exact le_refl 0
  · exact mul_nonneg (by exact_mod_cast proficiencyBand_nonneg _)
      (coverageFactor_nonneg _ (coverage_nonneg ms n))

/-- The multi-match bonus is non-negative. -/
theorem multiSkillBonus_nonneg (k : ℕ) : 0 ≤ multiSkillBonus k := by
  unfold multiSkillBonus
  have h : ((9:ℚ)/10) ^ (k - 1) ≤ 1 := pow_le_one₀ (by norm_num) (by norm_num)
  linarith

/-- The pre-append weighted score is non-negative when similarities are. -/
theorem weightedScore_nonneg (ms : List (ℚ × ℕ)) (n : ℕ)
    (h : ∀ p ∈ ms, 0 ≤ p.1) : 0 ≤ weightedScore ms n := by
  unfold weightedScore
  have hbase : (0:ℝ) ≤ (baseScore ms n : ℝ) := by exact_mod_cast baseScore_nonneg ms n h
  have hbonus := proficiencyBonus_nonneg ms n
  have hmin : (0:ℝ) ≤ min 1 ((baseScore ms n : ℝ) + proficiencyBonus ms n) :=
    le_min zero_le_one (add_nonneg hbase hbonus)
  have hmb : (0:ℝ) ≤ (multiSkillBonus ms.length : ℝ) := by
    exact_mod_cast multiSkillBonus_nonneg ms.length
  split_ifs
  · exact le_min zero_le_one (add_nonneg hmin hmb)
  · exact hmin

/-- The per-candidate `Weighted_Score` lies in `[0, 1]`. -/
theorem candidateWeightedScore_bounds (ms : List (ℚ × ℕ)) (n : ℕ)
    (h : ∀ p ∈ ms, 0 ≤ p.1) :
    0 ≤ candidateWeightedScore ms n ∧ candidateWeightedScore ms n ≤ 1 :=
  ⟨le_min zero_le_one (weightedScore_nonneg ms n h), min_le_left _ _⟩

/-- Elements are bounded by the fold maximum. -/
theorem le_maxScore (scores : List ℝ) (s : ℝ) (hs : s ∈ scores) :
    s ≤ maxScore scores := by
  unfold maxScore
  induction scores with
  | nil => cases hs
  | cons a t ih =>
    rcases List.mem_cons.mp hs with rfl | h
    · exact le_max_left _ _
    · exact (ih h).trans (le_max_right _ _)

/-- The fold maximum is non-negative. -/
theorem maxScore_nonneg (scores : List ℝ) : 0 ≤ maxScore scores := by
  unfold maxScore
  induction scores with
  | nil => exact le_refl 0
  | cons a t ih => exact ih.trans (le_max_right _ _)

/-- Pool normalization keeps all scores in `[0, 1]`. -/
theorem normalizeScores_bounds (scores : List ℝ)
    (h : ∀ s ∈ scores, 0 ≤ s ∧ s ≤ 1) :
    ∀ s ∈ normalizeScores scores, 0 ≤ s ∧ s ≤ 1 := by
  intro s hs
  unfold normalizeScores at hs
  split_ifs at hs with h1 h2
  · obtain ⟨a, ha, rfl⟩ := List.mem_map.mp hs
    exact ⟨le_min zero_le_one (h a ha).1, min_le_left _ _⟩
  · obtain ⟨a, ha, rfl⟩ := List.mem_map.mp hs
    have hm : 0 < maxScore scores := h1.2
    have ham : a ≤ maxScore scores := le_maxScore _ _ ha
    have hdiv : a / maxScore scores ≤ 1 := (div_le_one hm).mpr ham
    constructor
    · exact mul_nonneg (div_nonneg (h a ha).1 hm.le) (by norm_num)
    · nlinarith
  · exact h s hs

/-- The enhanced score lies in `[0, 1]` for non-negative inputs. -/
theorem enhancedScore_bounds (b c w cb : ℝ) (hb : 0 ≤ b) (hc : 0 ≤ c)
    (hw : 0 ≤ w) (hcb : 0 ≤ cb) :
    0 ≤ enhancedScore b c w cb ∧ enhancedScore b c w cb ≤ 1 :=
  ⟨le_min zero_le_one (by nlinarith), min_le_left _ _⟩

/-! ## C1: score bounds at the public interface -/

/-- Match percentage of the shared one-slot-per-day schedule with itself:
7 of 84 slots, i.e. 25/3 percent. -/
theorem matchPercentage_oneSlot :
    matchPercentage oneSlotSched oneSlotSched = 25/3 := by
  rw [matchPercentage]
  norm_num [totalCommon, finRange_seven, dayCommon, exactMatches, partialMatches,
    oneSlotSched, slotsOverlap, slotEndNorm, timeSlotsPerDay]

/-- C1 counterexample: the team compatibility score is NOT bounded by 1.
Two users with the identical one-slot-per-day schedule and equal
availability counts give pairwise match 25/3 (a percentage!) and zero
penalties, hence an overall team score of 25/3 > 1. -/
theorem claim_C1_counterexample : ¬ teamOverallScore [uFull, uFull] ≤ 1 := by
  have hscore : teamOverallScore [uFull, uFull] = 25/3 := by
    rw [teamOverallScore]
    have hps : pairScores [uFull, uFull] = [matchPercentage oneSlotSched oneSlotSched] := rfl
    rw [hps, matchPercentage_oneSlot]
    norm_num [availabilityPenalty, availabilityVariance, maxSlots, minSlots,
      zeroAvailabilityPenalty, listMin, listMax, uFull, List.filter]
  rw [hscore]
  norm_num

/-- C1 (amended): every returned skill score (`Weighted_Score`, before and
after pool normalization), every network-enhanced score and every
availability overlap lies in `[0, 1]`; the team compatibility score of
`_calculate_team_compatibility_score`, however, is on a 0-100 percent
scale (minus penalties) and is not confined to `[0, 1]`. -/
theorem claim_C1 :
    (∀ (threshold : ℚ) (cands : List MatchCand) (n : ℕ), 0 ≤ threshold →
      0 ≤ candidateScore threshold cands n ∧ candidateScore threshold cands n ≤ 1) ∧
    (∀ scores : List ℝ, (∀ s ∈ scores, 0 ≤ s ∧ s ≤ 1) →
      ∀ s ∈ normalizeScores scores, 0 ≤ s ∧ s ≤ 1) ∧
    (∀ (b c w : ℝ) (adj : Adjacency) (v : ℕ), 0 ≤ b → 0 ≤ c → 0 ≤ w →
      0 ≤ enhancedScore b c w ((communityBonus adj v : ℚ) : ℝ) ∧
        enhancedScore b c w ((communityBonus adj v : ℚ) : ℝ) ≤ 1) ∧
    (∀ s1 s2 : Schedule,
      0 ≤ availabilityOverlap s1 s2 ∧ availabilityOverlap s1 s2 ≤ 1) ∧
    (∃ team : List UserData, 1 < teamOverallScore team) := by
  refine ⟨?_, normalizeScores_bounds, ?_, availabilityOverlap_bounds, ?_⟩
  · intro threshold cands n ht
    unfold candidateScore
    exact candidateWeightedScore_bounds _ n fun p hp =>
      ht.trans (validMatches_mem threshold cands p hp).1
  · intro b c w adj v hb hc hw
    exact enhancedScore_bounds b c w _ hb hc hw
      (by exact_mod_cast communityBonus_nonneg adj v)
  · refine ⟨[uFull, uFull], ?_⟩
    have hscore : teamOverallScore [uFull, uFull] = 25/3 := by
      rw [teamOverallScore]
      have hps : pairScores [uFull, uFull] = [matchPercentage oneSlotSched oneSlotSched] := rfl
      rw [hps, matchPercentage_oneSlot]
      norm_num [availabilityPenalty, availabilityVariance, maxSlots, minSlots,
        zeroAvailabilityPenalty, listMin, listMax, uFull, List.filter]
    rw [hscore]
    norm_num

/-- C1 witness: the skill-score bound at the default threshold 0.5 with
one matched candidate entry. -/
theorem claim_C1_witness :
    0 ≤ candidateScore (1/2) [⟨3/5, "python", 3⟩] 1 ∧
      candidateScore (1/2) [⟨3/5, "python", 3⟩] 1 ≤ 1 :=
  claim_C1.1 (1/2) [⟨3/5, "python", 3⟩] 1 (by norm_num)

/-! ## C3 and C6: the proficiency bonus and perfect scores -/

/-- Full coverage gives factor `1 ** 0.7 = 1`. -/
theorem coverageFactor_one : coverageFactor 1 = 1 := by
  unfold coverageFactor
  rw [Rat.cast_one, Real.one_rpow]

/-- C3: the code's proficiency bonus at the failing input — one target
term, matched at similarity 0.6 with proficiency 1 (so full coverage and
average matched proficiency 1) — is 0.20, not the 0.05 the claim's band
table assigns to `1 ≤ p < 2`: the code compares the 1-5-scale average
against 0.2/0.4/0.6/0.8 cutoffs meant for a 0-1 scale (its own comments
say the average "will be in 0-1 range"), so the 20% band is always taken
once any term matches. -/
theorem claim_C3 :
    proficiencyBonus [((3:ℚ)/5, 1)] 1 = 1/5 ∧
      (specProficiencyBand 1 : ℝ) * coverageFactor 1 = 1/20 ∧
      ((1:ℝ)/5 : ℝ) ≠ 1/20 := by
  refine ⟨?_, ?_, by norm_num⟩
  · unfold proficiencyBonus
    rw [if_neg (by norm_num)]
    have h1 : avgProficiency [((3:ℚ)/5, 1)] = 1 := by
      norm_num [avgProficiency, totalProficiency]
    have h2 : coverage [((3:ℚ)/5, 1)] 1 = 1 := by norm_num [coverage]
    rw [h1, h2, coverageFactor_one]
    norm_num [proficiencyBand]
  · rw [coverageFactor_one]
    norm_num [specProficiencyBand]

/-- C6 counterexample: a candidate matching the single target term at
exactly the 0.5 threshold with proficiency 5 has full coverage and
maximal proficiency, yet scores 0.9, not 1.0: the base score
`min(0.8, 0.6*0.5 + 0.4)` is 0.7 and the bonus adds only 0.2. -/
theorem claim_C6_counterexample :
    candidateScore (1/2) [⟨1/2, "python", 5⟩] 1 ≠ 1 := by
  have hs : (decide (("python":String) ≠ "")) = true := by decide
  have hvm : validMatches (1/2) [⟨1/2, "python", 5⟩] = [(1/2, 5)] := by
    norm_num [validMatches, List.filter, hs]
  have hbonus : proficiencyBonus [((1:ℚ)/2, 5)] 1 = 1/5 := by
    unfold proficiencyBonus
    rw [if_neg (by norm_num)]
    have h1 : avgProficiency [((1:ℚ)/2, 5)] = 5 := by
      norm_num [avgProficiency, totalProficiency]
    have h2 : coverage [((1:ℚ)/2, 5)] 1 = 1 := by norm_num [coverage]
    rw [h1, h2, coverageFactor_one]
    norm_num [proficiencyBand]
  have hbase : baseScore [((1:ℚ)/2, 5)] 1 = 7/10 := by
    have h2 : coverage [((1:ℚ)/2, 5)] 1 = 1 := by norm_num [coverage]
    have h3 : avgScore [((1:ℚ)/2, 5)] = 1/2 := by
      norm_num [avgScore, weightedSimSum]
    unfold baseScore
    rw [h2, h3]
    norm_num [maxBaseScore]
  unfold candidateScore
  rw [hvm]
  unfold candidateWeightedScore weightedScore
  rw [hbase, hbonus]
  rw [if_neg (by norm_num)]
  have h9 : ((7 / 10 : ℚ) : ℝ) + 1 / 5 = 9 / 10 := by push_cast; norm_num
  rw [h9, min_eq_right (by norm_num : (9:ℝ)/10 ≤ 1),
    min_eq_right (by norm_num : (9:ℝ)/10 ≤ 1)]
  norm_num

/-- C6 (amended): if a candidate matches 100% of the target terms, every
matched skill has proficiency 5, and the matched similarities average at
least 2/3 (in particular when each is at least 2/3), the per-candidate
skill score is exactly 1.0 — and the pool normalization never moves a
score of 1.0 (the pool maximum is then above 0.8, so scores are only
clipped at 1). -/
theorem claim_C6 :
    (∀ (ms : List (ℚ × ℕ)) (n : ℕ), 0 < n → ms.length = n →
      (∀ p ∈ ms, p.2 = 5) → (∀ p ∈ ms, 2/3 ≤ p.1) →
      candidateWeightedScore ms n = 1) ∧
    (∀ scores : List ℝ, (∀ s ∈ scores, s ≤ 1) → (1:ℝ) ∈ scores →
      (1:ℝ) ∈ normalizeScores scores) := by
  constructor
  · intro ms n hn hlen hprof hsim
    have hlpos : 0 < ms.length := hlen ▸ hn
    have hlq : (0:ℚ) < (ms.length : ℚ) := by exact_mod_cast hlpos
    have hcov : coverage ms n = 1 := by
      unfold coverage
      rw [hlen]
      exact div_self (by exact_mod_cast hn.ne')
    have hmap5 : ms.map (fun p => p.2) = List.replicate ms.length 5 := by
      have := List.eq_replicate_of_mem (l := ms.map (fun p => p.2)) (a := 5)
        (fun b hb => by
          obtain ⟨p, hp, rfl⟩ := List.mem_map.mp hb
          exact hprof p hp)
      simpa using this
    have htp : totalProficiency ms = ms.length * 5 := by
      unfold totalProficiency
      rw [hmap5, List.sum_replicate, smul_eq_mul]
    have havgp : avgProficiency ms = 5 := by
      unfold avgProficiency
      rw [htp]
      push_cast
      field_simp
    have hbonus : proficiencyBonus ms n = 1/5 := by
      unfold proficiencyBonus
      rw [if_neg hlpos.ne', havgp, hcov, coverageFactor_one]
      norm_num [proficiencyBand]
    have havg : 2/3 ≤ avgScore ms := by
      have hmapsim : ms.map (fun p => p.1 * (3/10 + 7/10 * ((p.2 : ℚ) / 5)))
          = ms.map (fun p => p.1) :=
        List.map_congr_left fun p hp => by rw [hprof p hp]; norm_num
      have hconst : (ms.map (fun _ => (2:ℚ)/3)).sum = (ms.length : ℚ) * (2/3) := by
        rw [List.map_const', List.sum_replicate, nsmul_eq_mul]
      have hsum : (ms.length : ℚ) * (2/3) ≤ (ms.map (fun p => p.1)).sum := by
        rw [← hconst]
        exact List.sum_le_sum fun p hp => hsim p hp
      unfold avgScore
      rw [if_neg hlpos.ne']
      unfold weightedSimSum
      rw [hmapsim]
      rw [le_div_iff₀ hlq]
      linarith
    have hbase : baseScore ms n = 4/5 := by
      unfold baseScore
      rw [hcov]
      have hmb : maxBaseScore 1 = 4/5 := by norm_num [maxBaseScore]
      rw [hmb]
      exact min_eq_left (by nlinarith)
    have hsum1 : ((baseScore ms n : ℚ) : ℝ) + proficiencyBonus ms n = 1 := by
      rw [hbase, hbonus]
      push_cast
      norm_num
    have hws : weightedScore ms n = 1 := by
      unfold weightedScore
      rw [hsum1]
      have hmb' : (0:ℝ) ≤ (multiSkillBonus ms.length : ℝ) := by
        exact_mod_cast multiSkillBonus_nonneg ms.length
      split_ifs with hk
      · rw [min_self, min_eq_left (by linarith)]
      · exact min_self 1
    unfold candidateWeightedScore
    rw [hws]
    exact min_self 1
  · intro scores hle h1
    unfold normalizeScores
    have hmax1 : (1:ℝ) ≤ maxScore scores := le_maxScore scores 1 h1
    split_ifs with hA hB
    · exact List.mem_map.mpr ⟨1, h1, min_self 1⟩
    · exact absurd (lt_of_lt_of_le (by norm_num) hmax1) hB
    · exact h1

/-- C6 witness: a single target term matched at similarity 1 with
proficiency 5 scores exactly 1.0. -/
theorem claim_C6_witness : candidateWeightedScore [(1, 5)] 1 = 1 :=
  claim_C6.1 [(1, 5)] 1 (by norm_num) (by norm_num)
    (by intro p hp; simp at hp; rw [hp]) (by intro p hp; simp at hp; rw [hp]; norm_num)

/-! ## C9: meeting-slot buckets -/

/-- The schedule.py buckets in exact-fraction terms: perfect iff everyone
is free, good iff the free fraction is in `[0.8, 1)`, backup iff it is in
`[0.5, 0.8)`, dropped below `0.5`. -/
theorem scheduleSlotBucket_char (avail total : ℕ) (ht : 0 < total)
    (hle : avail ≤ total) :
    (scheduleSlotBucket avail total = .perfect ↔ avail = total) ∧
    (scheduleSlotBucket avail total = .good ↔
      (4/5 ≤ (avail:ℚ)/(total:ℚ) ∧ (avail:ℚ)/(total:ℚ) < 1)) ∧
    (scheduleSlotBucket avail total = .backup ↔
      (1/2 ≤ (avail:ℚ)/(total:ℚ) ∧ (avail:ℚ)/(total:ℚ) < 4/5)) ∧
    (scheduleSlotBucket avail total = .discarded ↔ (avail:ℚ)/(total:ℚ) < 1/2) := by
  have htq : (0:ℚ) < (total:ℚ) := by exact_mod_cast ht
  set r : ℚ := (avail:ℚ)/(total:ℚ) with hrdef
  have hr1 : r ≤ 1 := by
    rw [hrdef, div_le_one htq]
    exact_mod_cast hle
  have hreq : (r = 1) ↔ avail = total := by
    rw [hrdef, div_eq_one_iff_eq htq.ne']
    exact Nat.cast_inj
  unfold scheduleSlotBucket
  split_ifs with hA hB hC
  · have ha' : r = 1 := by linarith
    exact ⟨iff_of_true rfl (hreq.mp ha'),
      iff_of_false (by decide) (fun hF => absurd hF.2 (by rw [ha']; exact lt_irrefl 1)),
      iff_of_false (by decide) (fun hF => absurd hF.2 (by rw [ha']; norm_num)),
      iff_of_false (by decide) (by rw [ha']; norm_num)⟩
  · have hne : r ≠ 1 := fun h1 => hA (by rw [← hrdef, h1]; norm_num)
    exact ⟨iff_of_false (by decide) (fun he => hA (by rw [← hrdef, hreq.mpr he]; norm_num)),
      iff_of_true rfl ⟨by linarith, lt_of_le_of_ne hr1 hne⟩,
      iff_of_false (by decide) (fun hF => absurd hF.2 (not_lt.mpr (by linarith))),
      iff_of_false (by decide) (not_lt.mpr (by linarith))⟩
  · have hlt : r * 100 < 80 := not_le.mp hB
    exact ⟨iff_of_false (by decide) (fun he => hA (by rw [← hrdef, hreq.mpr he]; norm_num)),
      iff_of_false (by decide) (fun hF => absurd hF.1 (not_le.mpr (by linarith))),
      iff_of_true rfl ⟨by linarith, by linarith⟩,
      iff_of_false (by decide) (not_lt.mpr (by linarith))⟩
  · have hlt : r * 100 < 50 := not_le.mp hC
    exact ⟨iff_of_false (by decide) (fun he => hA (by rw [← hrdef, hreq.mpr he]; norm_num)),
      iff_of_false (by decide) (fun hF => absurd hF.1 (not_le.mpr (by linarith))),
      iff_of_false (by decide) (fun hF => absurd hF.1 (not_le.mpr (by linarith))),
      iff_of_true rfl (by linarith)⟩

/-- The meeting_slots.py buckets in terms of the truncated integer
thresholds `min_good = max(1, ⌊0.8·n⌋)` and `min_backup = max(1, ⌊0.5·n⌋)`. -/
theorem meetingSlotBucket_char (avail total : ℕ) (ht : 0 < total)
    (hle : avail ≤ total) :
    (meetingSlotBucket avail total = .perfect ↔ avail = total) ∧
    (meetingSlotBucket avail total = .good ↔
      (avail < total ∧ minGood total ≤ avail)) ∧
    (meetingSlotBucket avail total = .backup ↔
      (avail < total ∧ avail < minGood total ∧ minBackup total ≤ avail)) ∧
    (meetingSlotBucket avail total = .discarded ↔
      (avail = 0 ∨ (avail < total ∧ avail < minBackup total))) := by
  have hg1 : 1 ≤ minGood total := le_max_left 1 _
  have hb1 : 1 ≤ minBackup total := le_max_left 1 _
  have hhalf : total / 2 ≤ 4 * total / 5 := by omega
  have hgb : minBackup total ≤ minGood total :=
    max_le hg1 (hhalf.trans (le_max_right 1 _))
  unfold meetingSlotBucket
  split_ifs with h0 hP hG hB
  · exact ⟨iff_of_false (by decide) (by omega),
      iff_of_false (by decide) (by omega),
      iff_of_false (by decide) (by omega),
      iff_of_true rfl (Or.inl h0)⟩
  · exact ⟨iff_of_true rfl hP,
      iff_of_false (by decide) (by omega),
      iff_of_false (by decide) (by omega),
      iff_of_false (by decide) (by omega)⟩
  · exact ⟨iff_of_false (by decide) (by omega),
      iff_of_true rfl (by omega),
      iff_of_false (by decide) (by omega),
      iff_of_false (by decide) (by omega)⟩
  · exact ⟨iff_of_false (by decide) (by omega),
      iff_of_false (by decide) (by omega),
      iff_of_true rfl (by omega),
      iff_of_false (by decide) (by omega)⟩
  · exact ⟨iff_of_false (by decide) (by omega),
      iff_of_false (by decide) (by omega),
      iff_of_false (by decide) (by omega),
      iff_of_true rfl (by omega)⟩

/-- C9 counterexample: in `find_common_slots` a slot where 2 of 5 team
members are free — a 40% fraction, below the claimed 50% cutoff — is
classified as a backup slot rather than omitted, because
`min_backup = max(1, int(5*0.5)) = 2`. -/
theorem claim_C9_counterexample :
    meetingSlotBucket 2 5 = Bucket.backup ∧ ((2:ℚ)/5 < 1/2) :=
  ⟨by decide, by norm_num⟩

/-- C9 (amended): `find_team_meeting_slots` (schedule.py) buckets exactly
as the claim states — perfect iff 100% free, good iff in `[80%, 100%)`,
backup iff in `[50%, 80%)`, otherwise omitted; `find_common_slots`
(meeting_slots.py) instead compares the member count against the
truncated thresholds `max(1, ⌊0.8·n⌋)` / `max(1, ⌊0.5·n⌋)` (omitting
zero-attendance slots), which for some team sizes admits slots below the
claimed percentage cutoffs. -/
theorem claim_C9 :
    (∀ avail total : ℕ, 0 < total → avail ≤ total →
      (scheduleSlotBucket avail total = .perfect ↔ avail = total) ∧
      (scheduleSlotBucket avail total = .good ↔
        (4/5 ≤ (avail:ℚ)/(total:ℚ) ∧ (avail:ℚ)/(total:ℚ) < 1)) ∧
      (scheduleSlotBucket avail total = .backup ↔
        (1/2 ≤ (avail:ℚ)/(total:ℚ) ∧ (avail:ℚ)/(total:ℚ) < 4/5)) ∧
      (scheduleSlotBucket avail total = .discarded ↔ (avail:ℚ)/(total:ℚ) < 1/2)) ∧
    (∀ avail total : ℕ, 0 < total → avail ≤ total →
      (meetingSlotBucket avail total = .perfect ↔ avail = total) ∧
      (meetingSlotBucket avail total = .good ↔
        (avail < total ∧ minGood total ≤ avail)) ∧
      (meetingSlotBucket avail total = .backup ↔
        (avail < total ∧ avail < minGood total ∧ minBackup total ≤ avail)) ∧
      (meetingSlotBucket avail total = .discarded ↔
        (avail = 0 ∨ (avail < total ∧ avail < minBackup total)))) :=
  ⟨scheduleSlotBucket_char, meetingSlotBucket_char⟩

/-- C9 witness: 4 of 5 members free is a good slot in schedule.py's
classification. -/
theorem claim_C9_witness : scheduleSlotBucket 4 5 = Bucket.good :=
  (claim_C9.1 4 5 (by norm_num) (by norm_num)).2.1.mpr (by norm_num)

/-! ## C10: pool-level score normalization -/

/-- Scaling by a non-negative constant commutes with the fold maximum. -/
theorem maxScore_map_mul (l : List ℝ) (c : ℝ) (hc : 0 ≤ c) :
    maxScore (l.map (fun s => s * c)) = maxScore l * c := by
  unfold maxScore
  induction l with
  | nil => simp
  | cons a t ih =>
    simp only [List.map_cons, List.foldr_cons]
    rw [ih, ← max_mul_of_nonneg _ _ hc]

/-- C10: with more than one candidate and a positive maximum score of at
most 0.8, every score is rescaled by `0.8 / max` and the maximum becomes
exactly 0.8; with a maximum above 0.8 (scores being at most 1 already) or
a single-candidate pool, the scores are returned unchanged. -/
theorem claim_C10 :
    (∀ scores : List ℝ, 1 < scores.length → 0 < maxScore scores →
      maxScore scores ≤ 4/5 →
      normalizeScores scores = scores.map (fun s => s * (4/5 / maxScore scores)) ∧
        maxScore (normalizeScores scores) = 4/5) ∧
    (∀ scores : List ℝ, 4/5 < maxScore scores → (∀ s ∈ scores, s ≤ 1) →
      normalizeScores scores = scores) ∧
    (∀ scores : List ℝ, scores.length ≤ 1 → normalizeScores scores = scores) := by
  refine ⟨?_, ?_, ?_⟩
  · intro scores hlen hpos hle
    have hmap : normalizeScores scores
        = scores.map (fun s => s * (4/5 / maxScore scores)) := by
      unfold normalizeScores
      rw [if_pos ⟨hlen, hpos⟩, if_neg (not_lt.mpr hle)]
      exact List.map_congr_left fun s _ => by ring
    refine ⟨hmap, ?_⟩
    rw [hmap, maxScore_map_mul _ _ (by positivity)]
    field_simp
    ring
  · intro scores hmax hle
    unfold normalizeScores
    by_cases hA : 1 < scores.length ∧ 0 < maxScore scores
    · rw [if_pos hA, if_pos hmax]
      have h1 : ∀ s ∈ scores, (fun s => min 1 s) s = id s :=
        fun s hs => min_eq_right (hle s hs)
      rw [List.map_congr_left h1, List.map_id]
    · rw [if_neg hA]
  · intro scores hlen
    unfold normalizeScores
    rw [if_neg fun h => absurd h.1 (not_lt.mpr hlen)]

/-- C10 witness: the pool `[0.5, 0.25]` has maximum 0.5, so both scores
are scaled by `0.8 / 0.5` and the new maximum is exactly 0.8. -/
theorem claim_C10_witness :
    normalizeScores [(1:ℝ)/2, 1/4]
        = [(1:ℝ)/2, 1/4].map (fun s => s * (4/5 / maxScore [(1:ℝ)/2, 1/4])) ∧
      maxScore (normalizeScores [(1:ℝ)/2, 1/4]) = 4/5 := by
  have hm : maxScore [(1:ℝ)/2, 1/4] = 1/2 := by
    unfold maxScore
    simp only [List.foldr_cons, List.foldr_nil]
    rw [max_eq_left (by norm_num : (0:ℝ) ≤ 1/4),
      max_eq_left (by norm_num : (1:ℝ)/4 ≤ 1/2)]
  exact claim_C10.1 [(1:ℝ)/2, 1/4] (by norm_num)
    (by rw [hm]; norm_num) (by rw [hm]; norm_num)
